import Mathlib

/-!
A shallow embedding of `env.py` (module `env`, version 0.60): the `Entry`
string subtype with its conversion properties, and the `Environment`
mapping wrapper with its attribute-style and mapping-style access policy.

Modelling conventions:
* Python `str` values are Lean `String`s; the ASCII fragment of
  `str.lower`/`str.upper`/`str.isdigit` is modelled (the module only ever
  feeds variable names and values through these).
* Python dicts are association lists with in-place update, which matches
  CPython's insertion-ordered dicts on the operations used here.
* Exceptions are modelled as explicit result constructors
  (`KeyError`/`AttributeError`/`TypeError` and the read-only error).
* `int(...)`/`float(...)` are modelled over decimal literals (optional
  surrounding whitespace, optional sign, digits, and for floats an optional
  fraction and exponent); CPython additionally accepts underscores and
  `inf`/`nan`, which no claim exercises.
-/

namespace E2

/-! ### Characters and strings -/

/-- ASCII model of `str.lower` on one character. -/
def lowerChar (c : Char) : Char :=
  if 65 ≤ c.toNat ∧ c.toNat ≤ 90 then Char.ofNat (c.toNat + 32) else c

/-- ASCII model of `str.upper` on one character. -/
def upperChar (c : Char) : Char :=
  if 97 ≤ c.toNat ∧ c.toNat ≤ 122 then Char.ofNat (c.toNat - 32) else c

/-- ASCII model of `str.lower`. -/
def pyLower (s : String) : String := ⟨s.data.map lowerChar⟩

/-- ASCII model of `str.upper`. -/
def pyUpper (s : String) : String := ⟨s.data.map upperChar⟩

/-- ASCII decimal digit test (`str.isdigit` on one character). -/
def isPyDigitChar (c : Char) : Bool := 48 ≤ c.toNat && c.toNat ≤ 57

/-- Model of `str.isdigit`: nonempty and all digits. -/
def pyIsDigitStr (s : String) : Bool := !s.data.isEmpty && s.data.all isPyDigitChar

/-- Numeric value of a digit character. -/
def digitVal (c : Char) : Nat := c.toNat - 48

/-- Value of a big-endian list of decimal digit characters. -/
def natOfDigits (ds : List Char) : Nat := ds.foldl (fun a c => 10 * a + digitVal c) 0

/-- Whitespace stripped by `int(...)`/`float(...)` (ASCII fragment). -/
def isPySpace (c : Char) : Bool :=
  c = ' ' || c = '\t' || c = '\n' || c = '\r' || c.toNat = 11 || c.toNat = 12

/-- Strip leading and trailing whitespace, as `int(...)`/`float(...)` do. -/
def trimWs (cs : List Char) : List Char :=
  ((cs.dropWhile isPySpace).reverse.dropWhile isPySpace).reverse

/-! ### Entry (`class Entry(str)`)

An `Entry` behaves as its string content; it additionally records the
lookup name.  `value` coincides with the string content (`__new__` builds
the `str` from `value`, `__init__` stores it). -/

/-- An `Entry(name, value)`: the lookup name and the string content. -/
structure EntryV where
  name : String
  content : String
  deriving DecidableEq

/-- A Python value that is either a plain `str` or an `Entry`
(the backing dict holds plain strings, except that blankify stores
`Entry('', '')` objects). -/
inductive StrVal where
  | plain (s : String)
  | entry (e : EntryV)
  deriving DecidableEq

/-- The string content of a `str`-or-`Entry` value (`str(v)`). -/
def strOf : StrVal → String
  | .plain s => s
  | .entry e => e.content

/-- `Entry.as_bool` (lines 34-47): digit strings via `bool(int(...))`,
`yes`/`true`/`no`/`false` case-insensitively, `''` falsy, otherwise `None`. -/
def as_bool (e : EntryV) : Option Bool :=
  let lower := pyLower e.content
  if pyIsDigitStr lower then some (natOfDigits lower.data != 0)
  else if lower = "yes" || lower = "true" then some true
  else if lower = "no" || lower = "false" then some false
  else if e.content = "" then some false
  else none

/-- A digit or the PEP 515 underscore separator. -/
def isDigitOrUs (c : Char) : Bool := isPyDigitChar c || c = '_'

/-- Tail of a digit part after its leading digit: digits with single
underscores allowed only between digits (`afterUs` records that the
previous character was an underscore, which must be followed by a
digit). -/
def digitRunAux : Bool → List Char → Bool
  | afterUs, [] => !afterUs
  | afterUs, c :: t =>
    if isPyDigitChar c then digitRunAux false t
    else if c = '_' then (if afterUs then false else digitRunAux true t)
    else false

/-- A CPython `digitpart` (PEP 515): one or more decimal digits with
single underscores between digits. -/
def isDigitPart (ds : List Char) : Bool :=
  match ds with
  | [] => false
  | c :: t => isPyDigitChar c && digitRunAux false t

/-- Remove the underscore separators of a digit part. -/
def stripUnderscores (ds : List Char) : List Char := ds.filter (fun c => c != '_')

/-- Numeric value of a digit part (underscores ignored). -/
def digitPartVal (ds : List Char) : Nat := natOfDigits (stripUnderscores ds)

/-- Signed digit part: an optional sign followed by a digit part
consuming the whole input, with its integer value. -/
def signedDigits (r : List Char) : Option Int :=
  match r with
  | [] => none
  | c :: t =>
    if c = '+' then
      if isDigitPart t then some ((digitPartVal t : Nat) : Int) else none
    else if c = '-' then
      if isDigitPart t then some (-((digitPartVal t : Nat) : Int)) else none
    else
      if isDigitPart (c :: t) then some ((digitPartVal (c :: t) : Nat) : Int) else none

/-- Model of `int(s)` on a string: optional surrounding whitespace,
optional sign, a digit part (decimal digits with PEP 515 underscores);
`none` models `ValueError`. -/
def pyIntOfChars (cs : List Char) : Option Int :=
  signedDigits (trimWs cs)

/-- `Entry.as_int` (lines 62-66): `int(self)`. -/
def as_int (e : EntryV) : Option Int := pyIntOfChars e.content.data

/-- Exponent tail of a float literal: either nothing remains (exponent 0),
or `e`/`E` followed by a signed digit part consuming the whole rest. -/
def parseExpTail (cs : List Char) : Option Int :=
  match cs with
  | [] => some 0
  | c :: r => if c = 'e' || c = 'E' then signedDigits r else none

/-- Unsigned numeric part of a float literal: a digit part with an
optional fractional part (integer and fraction each optional but not
both absent, each a valid digit part when present) and an optional
exponent, with its exact rational value. -/
def mantissaExp (u : List Char) : Option ℚ :=
  let ds1 := u.takeWhile isDigitOrUs
  match u.dropWhile isDigitOrUs with
  | [] => if isDigitPart ds1 then some (digitPartVal ds1 : ℚ) else none
  | c :: w =>
    if c = '.' then
      let ds2 := w.takeWhile isDigitOrUs
      if (ds1.isEmpty || isDigitPart ds1) && ((ds2.isEmpty || isDigitPart ds2)
          && !(ds1.isEmpty && ds2.isEmpty)) then
        match parseExpTail (w.dropWhile isDigitOrUs) with
        | none => none
        | some e =>
          some (((digitPartVal ds1 : ℚ)
            + (digitPartVal ds2 : ℚ) / 10 ^ (stripUnderscores ds2).length) * 10 ^ e)
      else none
    else
      if isDigitPart ds1 then
        match parseExpTail (c :: w) with
        | none => none
        | some e => some ((digitPartVal ds1 : ℚ) * 10 ^ e)
      else none

/-- The value of a CPython `float(...)`: a finite rational, a signed
infinity, or nan. -/
inductive PyFloat where
  | finite (q : ℚ)
  | inf (neg : Bool)
  | nan
  deriving DecidableEq

/-- Body of a float literal after sign stripping: `inf`/`infinity`/`nan`
case-insensitively, or a numeric mantissa-and-exponent part. -/
def floatBody (u : List Char) (neg : Bool) : Option PyFloat :=
  let low := u.map lowerChar
  if low = "inf".data || low = "infinity".data then some (.inf neg)
  else if low = "nan".data then some .nan
  else (mantissaExp u).map (fun q => .finite (if neg then -q else q))

/-- Model of `float(s)`: optional whitespace and sign, then
`inf`/`infinity`/`nan` (any case) or a decimal literal with PEP 515
underscores, with the exact value of a finite literal as a rational;
`none` models `ValueError`. -/
def pyFloatOfChars (cs : List Char) : Option PyFloat :=
  match trimWs cs with
  | [] => none
  | c :: r =>
    if c = '+' then floatBody r false
    else if c = '-' then floatBody r true
    else floatBody (c :: r) false

/-- `Entry.as_float` (lines 57-60): `float(self)`. -/
def as_float (e : EntryV) : Option PyFloat := pyFloatOfChars e.content.data

/-! #### Spec-side literal grammar (refinement reading of the spec's
"valid integer literal" / "valid float literal") -/

/-- Spec-side: an optional sign. -/
def SignOpt (sign : List Char) : Prop := sign = [] ∨ sign = ['+'] ∨ sign = ['-']

/-- Spec-side: an optional sign followed by a digit part. -/
def IsSignedDigits (t : List Char) : Prop :=
  ∃ sign ds, t = sign ++ ds ∧ SignOpt sign ∧ isDigitPart ds = true

/-- Spec-side: a valid integer literal — optional surrounding whitespace,
optional sign, a digit part. -/
def IsIntLiteral (s : String) : Prop := IsSignedDigits (trimWs s.data)

/-- Spec-side: the mantissa of a float literal — a digit part, or an
optional digit part, one decimal point and an optional digit part with
at least one of the two present. -/
def IsMantissa (m : List Char) : Prop :=
  isDigitPart m = true ∨
  ∃ a b, m = a ++ '.' :: b ∧ (a = [] ∨ isDigitPart a = true) ∧
    (b = [] ∨ isDigitPart b = true) ∧ (a ≠ [] ∨ b ≠ [])

/-- Spec-side: the exponent part — empty, or `e`/`E` with a signed digit
part. -/
def IsExpPart (x : List Char) : Prop :=
  x = [] ∨ ∃ c t, x = c :: t ∧ (c = 'e' ∨ c = 'E') ∧ IsSignedDigits t

/-- Spec-side: a valid float literal — optional surrounding whitespace,
optional sign, then `inf`/`infinity`/`nan` case-insensitively or a
mantissa with optional exponent. -/
def IsFloatLiteral (s : String) : Prop :=
  ∃ sign body, trimWs s.data = sign ++ body ∧ SignOpt sign ∧
    (body.map lowerChar = "inf".data ∨ body.map lowerChar = "infinity".data ∨
     body.map lowerChar = "nan".data ∨
     ∃ m x, body = m ++ x ∧ IsMantissa m ∧ IsExpPart x)

/-! ### The backing dict -/

/-- The backing mapping: an insertion-ordered association list. -/
abbrev Dict := List (String × StrVal)

/-- `d[k]` as an `Option` (Python raises `KeyError` on `none`). -/
def dictGet (d : Dict) (k : String) : Option StrVal :=
  match d with
  | [] => none
  | (k', v') :: t => if k' = k then some v' else dictGet t k

/-- `d[k] = v`: replace in place if present, else append (CPython dict). -/
def dictInsert (d : Dict) (k : String) (v : StrVal) : Dict :=
  match d with
  | [] => [(k, v)]
  | (k', v') :: t => if k' = k then (k, v) :: t else (k', v') :: dictInsert t k v

/-- `del d[k]` on a present key: remove the binding. -/
def dictErase (d : Dict) (k : String) : Dict :=
  match d with
  | [] => []
  | (k', v') :: t => if k' = k then t else (k', v') :: dictErase t k

/-- `d.setdefault(k, v)`: the resulting value and the resulting dict. -/
def dictSetdefault (d : Dict) (k : String) (v : StrVal) : StrVal × Dict :=
  match dictGet d k with
  | some w => (w, d)
  | none => (v, dictInsert d k v)

/-! ### Environment (`class Environment(MutableMapping)`) -/

/-- The state of an `Environment`: the backing dict `_envars` and the
construction flags.  `fromOsEnviron` records whether `_original_env` is
the live `os.environ` object (an identity fact, not value equality). -/
structure Env where
  envars : Dict
  blankify : Bool
  noneify : Bool
  sensitive : Bool
  readonly : Bool
  fromOsEnviron : Bool
  deriving DecidableEq

/-- `Environment.__init__` (lines 98-117): keep the mapping as-is when
sensitive, else rebuild it with lowercased keys. -/
def mkEnvironment (environ : Dict) (sens bl nf ro : Bool) (isOsEnv : Bool) : Env :=
  { envars :=
      if sens then environ
      else environ.foldl (fun d p => dictInsert d (pyLower p.1) p.2) []
    blankify := bl
    noneify := nf
    sensitive := sens
    readonly := ro
    fromOsEnviron := isOsEnv }

/-- The key actually looked up: lowercased when insensitive. -/
def Env.foldName (env : Env) (name : String) : String :=
  if env.sensitive then name else pyLower name

/-- Result of `Environment.__getattr__`: the `Environment` class loophole,
a value (an `Entry` or the stored object), `None`, or `AttributeError`. -/
inductive AttrResult where
  | classRes
  | val (v : StrVal)
  | noneRes
  | attrError (name : String)
  deriving DecidableEq

/-- `Environment.__getattr__` (lines 122-140): the `'Environment'`
loophole, case folding, `Entry` wrapping on success, and the
blankify/noneify/raise policy on a missing key (blankify stores
`Entry('', '')` via `setdefault`). -/
def Env.getattr (env : Env) (name : String) : AttrResult × Env :=
  if name = "Environment" then (.classRes, env)
  else
    let n := env.foldName name
    match dictGet env.envars n with
    | some v => (.val (.entry ⟨n, strOf v⟩), env)
    | none =>
      if env.blankify then
        let r := dictSetdefault env.envars n (.entry ⟨"", ""⟩)
        (.val r.1, { env with envars := r.2 })
      else if env.noneify then (.noneRes, env)
      else (.attrError n, env)

/-- `Environment.__contains__` (lines 119-120): no case folding. -/
def Env.containsKey (env : Env) (name : String) : Bool :=
  (dictGet env.envars name).isSome

/-- `Environment.__getitem__` (line 157): the raw stored value, no
`Entry` wrapping, no folding, no fallback; `none` models `KeyError`. -/
def Env.getitem (env : Env) (key : String) : Option StrVal :=
  dictGet env.envars key

/-- `len(env)` (line 155). -/
def Env.lenE (env : Env) : Nat := env.envars.length

/-- Outcome of `Environment.__setattr__`, carrying the post-state of the
backing mapping and of the live `os.environ` model. -/
inductive SetAttrOutcome where
  | immutableError (env : Env) (osEnv : Dict)
  | ok (env : Env) (osEnv : Dict)
  deriving DecidableEq

/-- `Environment.__setattr__` (lines 142-149): read-only check, store
under the name exactly as given, and push to `os.environ` when the
original source was `os.environ` itself. -/
def Env.setattr (env : Env) (osEnv : Dict) (name : String) (v : StrVal) : SetAttrOutcome :=
  if env.readonly then .immutableError env osEnv
  else
    .ok { env with envars := dictInsert env.envars name v }
      (if env.fromOsEnviron then dictInsert osEnv name v else osEnv)

/-- Outcome of a delete, carrying the post-state. -/
inductive DelOutcome where
  | ok (env : Env)
  | keyError (name : String) (env : Env)
  deriving DecidableEq

/-- `Environment.__delattr__` (lines 151-152): `del self._envars[name]`,
with no read-only check and no folding. -/
def Env.delattr (env : Env) (name : String) : DelOutcome :=
  match dictGet env.envars name with
  | some _ => .ok { env with envars := dictErase env.envars name }
  | none => .keyError name env

/-- `Environment.__delitem__` (line 156): same as attribute delete. -/
def Env.delitem (env : Env) (key : String) : DelOutcome :=
  match dictGet env.envars key with
  | some _ => .ok { env with envars := dictErase env.envars key }
  | none => .keyError key env

/-- Outcome of `Environment.__setitem__`. -/
inductive SetItemOutcome where
  | typeError
  | attrErrorRes (name : String)
  deriving DecidableEq

/-- `Environment.__setitem__` (line 158): `self.data[key] = item`.  The
instance has no `data` attribute, so `self.data` goes through
`__getattr__('data')`; every possible result (an `Entry`, the stored
string, `None`, or the class) rejects item assignment with `TypeError`,
and the `AttributeError` case propagates.  `key` and `item` are never
used; the blankify side effect of the `data` lookup is kept. -/
def Env.setitem (env : Env) (_key : String) (_v : StrVal) : SetItemOutcome × Env :=
  match env.getattr "data" with
  | (.classRes, env') => (.typeError, env')
  | (.val _, env') => (.typeError, env')
  | (.noneRes, env') => (.typeError, env')
  | (.attrError n, env') => (.attrErrorRes n, env')

/-- Whether a value is an `Entry` object (as opposed to a plain `str`). -/
def StrVal.isEntryB : StrVal → Bool
  | .plain _ => false
  | .entry _ => true

/-- Whether an attribute-lookup result is a value (an `Entry` or a
stored object), as opposed to the class, `None`, or an error. -/
def AttrResult.isValB : AttrResult → Bool
  | .val _ => true
  | _ => false

/-! ### Helper lemmas: characters and case folding -/

theorem toNat_ofNat_small (n : Nat) (h : n < 55296) : (Char.ofNat n).toNat = n := by
  rw [Char.ofNat, dif_pos (Or.inl h)]
  rfl

theorem toNat_lowerChar (c : Char) :
    (lowerChar c).toNat = if 65 ≤ c.toNat ∧ c.toNat ≤ 90 then c.toNat + 32 else c.toNat := by
  by_cases h : 65 ≤ c.toNat ∧ c.toNat ≤ 90
  · simp [lowerChar, h, toNat_ofNat_small (c.toNat + 32) (by omega)]
  · simp [lowerChar, h]

theorem toNat_upperChar (c : Char) :
    (upperChar c).toNat = if 97 ≤ c.toNat ∧ c.toNat ≤ 122 then c.toNat - 32 else c.toNat := by
  by_cases h : 97 ≤ c.toNat ∧ c.toNat ≤ 122
  · simp [upperChar, h, toNat_ofNat_small (c.toNat - 32) (by omega)]
  · simp [upperChar, h]

theorem lowerChar_eq_self_of_not {c : Char} (h : ¬(65 ≤ c.toNat ∧ c.toNat ≤ 90)) :
    lowerChar c = c := by
  simp [lowerChar, h]

theorem lowerChar_idem (c : Char) : lowerChar (lowerChar c) = lowerChar c := by
  by_cases h : 65 ≤ c.toNat ∧ c.toNat ≤ 90
  · apply lowerChar_eq_self_of_not
    rw [toNat_lowerChar, if_pos h]
    omega
  · rw [lowerChar_eq_self_of_not h]
    exact lowerChar_eq_self_of_not h

theorem lowerChar_upperChar (c : Char) : lowerChar (upperChar c) = lowerChar c := by
  by_cases h : 97 ≤ c.toNat ∧ c.toNat ≤ 122
  · have h1 : (upperChar c).toNat = c.toNat - 32 := by rw [toNat_upperChar, if_pos h]
    have h2 : lowerChar (upperChar c) = Char.ofNat ((upperChar c).toNat + 32) := by
      rw [lowerChar, if_pos (by omega)]
    have h3 : lowerChar c = c := lowerChar_eq_self_of_not (by omega)
    rw [h2, h3, h1]
    have h4 : c.toNat - 32 + 32 = c.toNat := by omega
    rw [h4, Char.ofNat_toNat]
  · have h1 : upperChar c = c := by simp [upperChar, h]
    rw [h1]

theorem upperChar_ne_lower_n (c : Char) : upperChar c ≠ 'n' := by
  intro hEq
  have ht : (upperChar c).toNat = 110 := by
    rw [hEq]
    rfl
  rw [toNat_upperChar] at ht
  by_cases h : 97 ≤ c.toNat ∧ c.toNat ≤ 122
  · rw [if_pos h] at ht
    omega
  · rw [if_neg h] at ht
    exact h (by omega)

theorem lowerChar_ne_upper_E (c : Char) : lowerChar c ≠ 'E' := by
  intro hEq
  have ht : (lowerChar c).toNat = 69 := by
    rw [hEq]
    rfl
  rw [toNat_lowerChar] at ht
  by_cases h : 65 ≤ c.toNat ∧ c.toNat ≤ 90
  · rw [if_pos h] at ht
    omega
  · rw [if_neg h] at ht
    exact h (by omega)

theorem pyLower_idem (s : String) : pyLower (pyLower s) = pyLower s := by
  have hf : lowerChar ∘ lowerChar = lowerChar := funext lowerChar_idem
  simp only [pyLower, List.map_map, hf]

theorem pyLower_pyUpper (s : String) : pyLower (pyUpper s) = pyLower s := by
  have hf : lowerChar ∘ upperChar = lowerChar := funext lowerChar_upperChar
  simp only [pyLower, pyUpper, List.map_map, hf]

theorem pyUpper_ne_Environment (s : String) : pyUpper s ≠ "Environment" := by
  intro h
  have hd : s.data.map upperChar = "Environment".data := congrArg String.data h
  have hmem : 'n' ∈ s.data.map upperChar := by
    rw [hd]
    decide
  rcases List.mem_map.mp hmem with ⟨a, _, ha⟩
  exact upperChar_ne_lower_n a ha

theorem pyLower_ne_Environment (s : String) : pyLower s ≠ "Environment" := by
  intro h
  have hd : s.data.map lowerChar = "Environment".data := congrArg String.data h
  have hmem : 'E' ∈ s.data.map lowerChar := by
    rw [hd]
    decide
  rcases List.mem_map.mp hmem with ⟨a, _, ha⟩
  exact lowerChar_ne_upper_E a ha

/-! ### Helper lemmas: the backing dict -/

theorem mem_dictInsert {d : Dict} {k : String} {v : StrVal} {p : String × StrVal}
    (h : p ∈ dictInsert d k v) : p = (k, v) ∨ p ∈ d := by
  induction d with
  | nil => simpa [dictInsert] using h
  | cons q t ih =>
    rw [dictInsert] at h
    by_cases hk : q.1 = k
    · rw [if_pos hk] at h
      rcases List.mem_cons.mp h with h1 | h1
      · exact Or.inl h1
      · exact Or.inr (List.mem_cons_of_mem q h1)
    · rw [if_neg hk] at h
      rcases List.mem_cons.mp h with h1 | h1
      · exact Or.inr (h1 ▸ List.mem_cons_self q t)
      · rcases ih h1 with h2 | h2
        · exact Or.inl h2
        · exact Or.inr (List.mem_cons_of_mem q h2)

theorem dictGet_dictInsert_self (d : Dict) (k : String) (v : StrVal) :
    dictGet (dictInsert d k v) k = some v := by
  induction d with
  | nil => simp [dictInsert, dictGet]
  | cons q t ih =>
    rw [dictInsert]
    by_cases hk : q.1 = k
    · rw [if_pos hk, dictGet, if_pos rfl]
    · rw [if_neg hk, dictGet, if_neg hk]
      exact ih

theorem dictGet_dictInsert_ne (d : Dict) (k : String) (v : StrVal) (k' : String)
    (h : k' ≠ k) : dictGet (dictInsert d k v) k' = dictGet d k' := by
  induction d with
  | nil => simp [dictInsert, dictGet, Ne.symm h]
  | cons q t ih =>
    rw [dictInsert]
    by_cases hk : q.1 = k
    · rw [if_pos hk, dictGet, dictGet, hk, if_neg (Ne.symm h), if_neg (Ne.symm h)]
    · rw [if_neg hk, dictGet, dictGet]
      by_cases hq : q.1 = k'
      · rw [if_pos hq, if_pos hq]
      · rw [if_neg hq, if_neg hq]
        exact ih

theorem length_dictInsert {d : Dict} {k : String} (v : StrVal)
    (h : dictGet d k = none) : (dictInsert d k v).length = d.length + 1 := by
  induction d with
  | nil => simp [dictInsert]
  | cons q t ih =>
    rw [dictGet] at h
    by_cases hk : q.1 = k
    · rw [if_pos hk] at h
      simp at h
    · rw [if_neg hk] at h
      rw [dictInsert, if_neg hk, List.length_cons, List.length_cons, ih h]

/-! ### Helper lemmas: literal grammars -/

theorem and_true_split {a b : Bool} (h : (a && b) = true) : a = true ∧ b = true := by
  simpa using h

theorem or_true_split {a b : Bool} (h : (a || b) = true) : a = true ∨ b = true := by
  simpa using h

theorem digitRunAux_all : ∀ (t : List Char) (b : Bool),
    digitRunAux b t = true → t.all isDigitOrUs = true := by
  intro t
  induction t with
  | nil =>
    intro b h
    rfl
  | cons c t ih =>
    intro b h
    simp only [digitRunAux] at h
    by_cases hd : isPyDigitChar c = true
    · rw [if_pos hd] at h
      rw [List.all_cons, ih false h]
      simp [isDigitOrUs, hd]
    · rw [if_neg hd] at h
      by_cases hu : c = '_'
      · rw [if_pos hu] at h
        cases b with
        | true => simp at h
        | false =>
          rw [if_neg (by simp)] at h
          rw [List.all_cons, ih true h]
          simp [isDigitOrUs, hu]
      · rw [if_neg hu] at h
        simp at h

theorem digitPart_all {ds : List Char} (h : isDigitPart ds = true) :
    ds.all isDigitOrUs = true := by
  cases ds with
  | nil => simp [isDigitPart] at h
  | cons c t =>
    simp only [isDigitPart] at h
    have h2 := and_true_split h
    rw [List.all_cons, digitRunAux_all t false h2.2]
    simp [isDigitOrUs, h2.1]

theorem digitPart_head {c : Char} {t : List Char} (h : isDigitPart (c :: t) = true) :
    isPyDigitChar c = true := by
  simp only [isDigitPart] at h
  exact (and_true_split h).1

theorem signedDigits_isSome_iff (r : List Char) :
    (signedDigits r).isSome = true ↔ IsSignedDigits r := by
  cases r with
  | nil =>
    apply iff_of_false
    · simp [signedDigits]
    · rintro ⟨sign, ds, heq, hs, hds⟩
      have hnil := (List.append_eq_nil.mp heq.symm).2
      rw [hnil] at hds
      simp [isDigitPart] at hds
  | cons c t =>
    by_cases hp : c = '+'
    · subst hp
      simp only [signedDigits, if_pos rfl]
      constructor
      · intro h
        by_cases hc : isDigitPart t = true
        · exact ⟨['+'], t, rfl, Or.inr (Or.inl rfl), hc⟩
        · rw [if_neg hc] at h
          simp at h
      · rintro ⟨sign, ds, heq, hs, hds⟩
        rcases hs with hs | hs | hs <;> subst hs
        · rw [List.nil_append] at heq
          rw [← heq] at hds
          have hplus : isPyDigitChar '+' = false := by decide
          simp [isDigitPart, hplus] at hds
        · rw [List.cons_append, List.nil_append] at heq
          simp only [List.cons.injEq] at heq
          simp [heq.2, hds]
        · rw [List.cons_append, List.nil_append] at heq
          simp only [List.cons.injEq] at heq
          exact absurd heq.1 (by decide)
    · by_cases hm : c = '-'
      · subst hm
        simp only [signedDigits, if_neg (by decide : ¬('-' = '+')), if_pos rfl]
        constructor
        · intro h
          by_cases hc : isDigitPart t = true
          · exact ⟨['-'], t, rfl, Or.inr (Or.inr rfl), hc⟩
          · rw [if_neg hc] at h
            simp at h
        · rintro ⟨sign, ds, heq, hs, hds⟩
          rcases hs with hs | hs | hs <;> subst hs
          · rw [List.nil_append] at heq
            rw [← heq] at hds
            have hminus : isPyDigitChar '-' = false := by decide
            simp [isDigitPart, hminus] at hds
          · rw [List.cons_append, List.nil_append] at heq
            simp only [List.cons.injEq] at heq
            exact absurd heq.1 (by decide)
          · rw [List.cons_append, List.nil_append] at heq
            simp only [List.cons.injEq] at heq
            simp [heq.2, hds]
      · simp only [signedDigits, if_neg hp, if_neg hm]
        constructor
        · intro h
          by_cases hc : isDigitPart (c :: t) = true
          · exact ⟨[], c :: t, rfl, Or.inl rfl, hc⟩
          · rw [if_neg hc] at h
            simp at h
        · rintro ⟨sign, ds, heq, hs, hds⟩
          rcases hs with hs | hs | hs <;> subst hs
          · rw [List.nil_append] at heq
            rw [heq]
            simp [hds]
          · rw [List.cons_append, List.nil_append] at heq
            simp only [List.cons.injEq] at heq
            exact absurd heq.1 hp
          · rw [List.cons_append, List.nil_append] at heq
            simp only [List.cons.injEq] at heq
            exact absurd heq.1 hm

theorem parseExpTail_isSome_iff (x : List Char) :
    (parseExpTail x).isSome = true ↔ IsExpPart x := by
  cases x with
  | nil =>
    apply iff_of_true
    · rfl
    · exact Or.inl rfl
  | cons c r =>
    simp only [parseExpTail]
    by_cases hc : c = 'e' ∨ c = 'E'
    · have hcb : (c = 'e' || c = 'E') = true := by
        rcases hc with h | h <;> simp [h]
      rw [if_pos hcb, signedDigits_isSome_iff]
      constructor
      · intro h
        exact Or.inr ⟨c, r, rfl, hc, h⟩
      · rintro (h | ⟨c', t', heq, hc', hsd⟩)
        · exact absurd h (by simp)
        · simp only [List.cons.injEq] at heq
          rw [heq.2]
          exact hsd
    · have hcb : ¬((c = 'e' || c = 'E') = true) := by
        simp only [Bool.or_eq_true, decide_eq_true_eq]
        exact hc
      rw [if_neg hcb]
      apply iff_of_false
      · simp
      · rintro (h | ⟨c', t', heq, hc', hsd⟩)
        · exact absurd h (by simp)
        · simp only [List.cons.injEq] at heq
          rw [heq.1] at hc
          exact hc hc'

theorem expPart_head_facts {x : List Char} (hx : IsExpPart x) {c : Char} {r' : List Char}
    (heq : x = c :: r') : isDigitOrUs c = false ∧ c ≠ '.' := by
  rcases hx with h | ⟨c', t', heq', hc', _⟩
  · rw [h] at heq
    exact absurd heq (by simp)
  · rw [heq'] at heq
    simp only [List.cons.injEq] at heq
    rcases hc' with h | h <;> rw [heq.1.symm.trans h] <;> exact ⟨by decide, by decide⟩

theorem mantissa_head {m : List Char} (hm : IsMantissa m) :
    ∃ c m', m = c :: m' ∧ (isDigitOrUs c = true ∨ c = '.') := by
  rcases hm with h | ⟨a, b, heq, ha, hb, hab⟩
  · cases m with
    | nil => simp [isDigitPart] at h
    | cons c m' =>
      exact ⟨c, m', rfl, Or.inl (by simp [isDigitOrUs, digitPart_head h])⟩
  · cases a with
    | nil => exact ⟨'.', b, by simpa using heq, Or.inr rfl⟩
    | cons c a' =>
      rcases ha with ha | ha
      · exact absurd ha (by simp)
      · exact ⟨c, a' ++ '.' :: b, by simp [heq],
          Or.inl (by simp [isDigitOrUs, digitPart_head ha])⟩

theorem takeWhile_append_not {p : Char → Bool} (ds rest : List Char)
    (h : ds.all p = true) (h2 : ∀ c r', rest = c :: r' → p c = false) :
    (ds ++ rest).takeWhile p = ds ∧ (ds ++ rest).dropWhile p = rest := by
  induction ds with
  | nil =>
    simp only [List.nil_append]
    cases rest with
    | nil => exact ⟨rfl, rfl⟩
    | cons c r =>
      have hc : p c = false := h2 c r rfl
      rw [List.takeWhile_cons_of_neg (by simp [hc]), List.dropWhile_cons_of_neg (by simp [hc])]
      exact ⟨rfl, rfl⟩
  | cons d t ih =>
    rw [List.all_cons] at h
    have hd := (and_true_split h).1
    have ht := (and_true_split h).2
    have hih := ih ht
    rw [List.cons_append, List.takeWhile_cons_of_pos hd, List.dropWhile_cons_of_pos hd,
      hih.1, hih.2]
    exact ⟨rfl, rfl⟩

theorem dropWhile_head_not {p : Char → Bool} {l : List Char} {c : Char} {r : List Char}
    (h : l.dropWhile p = c :: r) : p c = false := by
  have hh := List.head?_dropWhile_not p l
  rw [h] at hh
  simpa using hh

theorem dotCond_true {a b : List Char} (ha : a = [] ∨ isDigitPart a = true)
    (hb : b = [] ∨ isDigitPart b = true) (hab : a ≠ [] ∨ b ≠ []) :
    ((a.isEmpty || isDigitPart a) && ((b.isEmpty || isDigitPart b)
      && !(a.isEmpty && b.isEmpty))) = true := by
  have h1 : (a.isEmpty || isDigitPart a) = true := by
    rcases ha with h | h <;> simp [h]
  have h2 : (b.isEmpty || isDigitPart b) = true := by
    rcases hb with h | h <;> simp [h]
  have h3 : (!(a.isEmpty && b.isEmpty)) = true := by
    rcases hab with h | h
    · cases a with
      | nil => exact absurd rfl h
      | cons q l => simp
    · cases b with
      | nil => exact absurd rfl h
      | cons q l => simp
  rw [h1, h2, h3]
  rfl

theorem dotCond_split {a b : List Char}
    (h : ((a.isEmpty || isDigitPart a) && ((b.isEmpty || isDigitPart b)
      && !(a.isEmpty && b.isEmpty))) = true) :
    (a = [] ∨ isDigitPart a = true) ∧ (b = [] ∨ isDigitPart b = true) ∧
      (a ≠ [] ∨ b ≠ []) := by
  have h1 := and_true_split h
  have h2 := and_true_split h1.2
  refine ⟨?_, ?_, ?_⟩
  · rcases or_true_split h1.1 with h' | h'
    · exact Or.inl (by simpa using h')
    · exact Or.inr h'
  · rcases or_true_split h2.1 with h' | h'
    · exact Or.inl (by simpa using h')
    · exact Or.inr h'
  · simpa using h2.2

theorem mantissaExp_isSome_iff (u : List Char) :
    (mantissaExp u).isSome = true ↔ ∃ m x, u = m ++ x ∧ IsMantissa m ∧ IsExpPart x := by
  have hu : u.takeWhile isDigitOrUs ++ u.dropWhile isDigitOrUs = u :=
    List.takeWhile_append_dropWhile isDigitOrUs u
  cases hv : u.dropWhile isDigitOrUs with
  | nil =>
    simp only [mantissaExp, hv]
    rw [hv, List.append_nil] at hu
    rw [hu]
    constructor
    · intro h
      by_cases hd : isDigitPart u = true
      · exact ⟨u, [], by simp, Or.inl hd, Or.inl rfl⟩
      · rw [if_neg hd] at h
        simp at h
    · rintro ⟨m, x, hmx, hm, hx⟩
      have hall : u.all isDigitOrUs = true := by
        rw [← hu]
        exact List.all_takeWhile
      have hx0 : x = [] := by
        rcases hx with h | ⟨c', t', hxe, hc', _⟩
        · exact h
        · exfalso
          have hcmem : c' ∈ u := by
            rw [hmx, hxe]
            exact List.mem_append_right m (List.mem_cons_self c' t')
          have hcd := List.all_eq_true.mp hall c' hcmem
          rcases hc' with he | he <;> rw [he] at hcd <;> exact absurd hcd (by decide)
      rw [hx0, List.append_nil] at hmx
      rcases hm with hd | ⟨a, b, hmeq, ha, hb, hab⟩
      · simp [hmx, hd]
      · exfalso
        have hdot : ('.' : Char) ∈ u := by
          rw [hmx, hmeq]
          exact List.mem_append_right a (List.mem_cons_self '.' b)
        have := List.all_eq_true.mp hall '.' hdot
        exact absurd this (by decide)
  | cons c w =>
    simp only [mantissaExp, hv]
    rw [hv] at hu
    have hcp : isDigitOrUs c = false := dropWhile_head_not hv
    by_cases hdot : c = '.'
    · subst hdot
      rw [if_pos rfl]
      have hw : w.takeWhile isDigitOrUs ++ w.dropWhile isDigitOrUs = w :=
        List.takeWhile_append_dropWhile isDigitOrUs w
      constructor
      · intro h
        by_cases hcond :
            (((u.takeWhile isDigitOrUs).isEmpty || isDigitPart (u.takeWhile isDigitOrUs)) &&
              (((w.takeWhile isDigitOrUs).isEmpty || isDigitPart (w.takeWhile isDigitOrUs))
                && !((u.takeWhile isDigitOrUs).isEmpty && (w.takeWhile isDigitOrUs).isEmpty)))
              = true
        · rw [if_pos hcond] at h
          cases hpe : parseExpTail (w.dropWhile isDigitOrUs) with
          | none =>
            rw [hpe] at h
            simp at h
          | some e =>
            have hsplit := dotCond_split hcond
            refine ⟨u.takeWhile isDigitOrUs ++ '.' :: w.takeWhile isDigitOrUs,
                    w.dropWhile isDigitOrUs, ?_, ?_, ?_⟩
            · conv_lhs => rw [← hu]
              rw [List.append_assoc, List.cons_append, hw]
            · exact Or.inr ⟨_, _, rfl, hsplit.1, hsplit.2.1, hsplit.2.2⟩
            · exact (parseExpTail_isSome_iff _).mp (by rw [hpe]; rfl)
        · rw [if_neg hcond] at h
          simp at h
      · rintro ⟨m, x, hmx, hm, hx⟩
        rcases hm with hd | ⟨a, b, hmeq, ha, hb, hab⟩
        · exfalso
          have hxh : ∀ c' r', x = c' :: r' → isDigitOrUs c' = false := fun c' r' he =>
            (expPart_head_facts hx he).1
          have hsplit := takeWhile_append_not m x (digitPart_all hd) hxh
          rw [hmx, hsplit.2] at hv
          exact (expPart_head_facts hx hv).2 rfl
        · have hxh : ∀ c' r', x = c' :: r' → isDigitOrUs c' = false := fun c' r' he =>
            (expPart_head_facts hx he).1
          have haall : a.all isDigitOrUs = true := by
            rcases ha with h' | h'
            · rw [h']
              rfl
            · exact digitPart_all h'
          have hball : b.all isDigitOrUs = true := by
            rcases hb with h' | h'
            · rw [h']
              rfl
            · exact digitPart_all h'
          have hsplit1 := takeWhile_append_not a ('.' :: (b ++ x)) haall (by
            intro c' r' he
            simp only [List.cons.injEq] at he
            rw [← he.1]
            decide)
          have hu2 : u = a ++ '.' :: (b ++ x) := by
            rw [hmx, hmeq, List.append_assoc, List.cons_append]
          have ht1 : u.takeWhile isDigitOrUs = a := by
            rw [hu2]
            exact hsplit1.1
          have ht2 : u.dropWhile isDigitOrUs = '.' :: (b ++ x) := by
            rw [hu2]
            exact hsplit1.2
          have hw2 : w = b ++ x := by
            rw [hv] at ht2
            simpa using ht2
          have hsplit2 := takeWhile_append_not b x hball hxh
          have ht3 : w.takeWhile isDigitOrUs = b := by
            rw [hw2]
            exact hsplit2.1
          have ht4 : w.dropWhile isDigitOrUs = x := by
            rw [hw2]
            exact hsplit2.2
          rw [ht1, ht3, ht4, if_pos (dotCond_true ha hb hab)]
          obtain ⟨e, hpe⟩ : ∃ e, parseExpTail x = some e :=
            Option.isSome_iff_exists.mp ((parseExpTail_isSome_iff x).mpr hx)
          rw [hpe]
          rfl
    · rw [if_neg hdot]
      constructor
      · intro h
        by_cases h1 : isDigitPart (u.takeWhile isDigitOrUs) = true
        · rw [if_pos h1] at h
          cases hpe : parseExpTail (c :: w) with
          | none =>
            rw [hpe] at h
            simp at h
          | some e =>
            refine ⟨u.takeWhile isDigitOrUs, c :: w, hu.symm, Or.inl h1, ?_⟩
            exact (parseExpTail_isSome_iff _).mp (by rw [hpe]; rfl)
        · rw [if_neg h1] at h
          simp at h
      · rintro ⟨m, x, hmx, hm, hx⟩
        rcases hm with hd | ⟨a, b, hmeq, ha, hb, hab⟩
        · have hxh : ∀ c' r', x = c' :: r' → isDigitOrUs c' = false := fun c' r' he =>
            (expPart_head_facts hx he).1
          have hsplit := takeWhile_append_not m x (digitPart_all hd) hxh
          have ht1 : u.takeWhile isDigitOrUs = m := by
            rw [hmx]
            exact hsplit.1
          have ht2 : u.dropWhile isDigitOrUs = x := by
            rw [hmx]
            exact hsplit.2
          have hx2 : x = c :: w := by rw [← ht2, hv]
          rw [ht1, if_pos hd]
          obtain ⟨e, hpe⟩ : ∃ e, parseExpTail x = some e :=
            Option.isSome_iff_exists.mp ((parseExpTail_isSome_iff x).mpr hx)
          rw [hx2] at hpe
          rw [hpe]
          rfl
        · exfalso
          have haall : a.all isDigitOrUs = true := by
            rcases ha with h' | h'
            · rw [h']
              rfl
            · exact digitPart_all h'
          have hsplit1 := takeWhile_append_not a ('.' :: (b ++ x)) haall (by
            intro c' r' he
            simp only [List.cons.injEq] at he
            rw [← he.1]
            decide)
          have hu2 : u = a ++ '.' :: (b ++ x) := by
            rw [hmx, hmeq, List.append_assoc, List.cons_append]
          have ht2 : u.dropWhile isDigitOrUs = '.' :: (b ++ x) := by
            rw [hu2]
            exact hsplit1.2
          rw [hv] at ht2
          simp only [List.cons.injEq] at ht2
          exact hdot ht2.1

theorem bodyOk_head {body : List Char}
    (h : body.map lowerChar = "inf".data ∨ body.map lowerChar = "infinity".data ∨
         body.map lowerChar = "nan".data ∨
         ∃ m x, body = m ++ x ∧ IsMantissa m ∧ IsExpPart x) :
    ∃ c t, body = c :: t ∧
      (lowerChar c = 'i' ∨ lowerChar c = 'n' ∨ isDigitOrUs c = true ∨ c = '.') := by
  rcases h with h | h | h | ⟨m, x, hmx, hm, hx⟩
  · cases body with
    | nil => simp at h
    | cons c t =>
      rw [List.map_cons, show ("inf".data : List Char) = 'i' :: "nf".data from rfl] at h
      simp only [List.cons.injEq] at h
      exact ⟨c, t, rfl, Or.inl h.1⟩
  · cases body with
    | nil => simp at h
    | cons c t =>
      rw [List.map_cons, show ("infinity".data : List Char) = 'i' :: "nfinity".data from rfl]
        at h
      simp only [List.cons.injEq] at h
      exact ⟨c, t, rfl, Or.inl h.1⟩
  · cases body with
    | nil => simp at h
    | cons c t =>
      rw [List.map_cons, show ("nan".data : List Char) = 'n' :: "an".data from rfl] at h
      simp only [List.cons.injEq] at h
      exact ⟨c, t, rfl, Or.inr (Or.inl h.1)⟩
  · rcases mantissa_head hm with ⟨c, m', hm', hc⟩
    refine ⟨c, m' ++ x, by rw [hmx, hm']; rfl, ?_⟩
    rcases hc with h' | h'
    · exact Or.inr (Or.inr (Or.inl h'))
    · exact Or.inr (Or.inr (Or.inr h'))

theorem floatBody_isSome_iff (u : List Char) (neg : Bool) :
    (floatBody u neg).isSome = true ↔
      (u.map lowerChar = "inf".data ∨ u.map lowerChar = "infinity".data ∨
       u.map lowerChar = "nan".data ∨ ∃ m x, u = m ++ x ∧ IsMantissa m ∧ IsExpPart x) := by
  simp only [floatBody]
  by_cases h1 : u.map lowerChar = "inf".data ∨ u.map lowerChar = "infinity".data
  · have h1b : (u.map lowerChar = "inf".data || u.map lowerChar = "infinity".data) = true := by
      rcases h1 with h | h <;> simp [h]
    rw [if_pos h1b]
    apply iff_of_true
    · rfl
    · rcases h1 with h | h
      · exact Or.inl h
      · exact Or.inr (Or.inl h)
  · have h1b : ¬((u.map lowerChar = "inf".data || u.map lowerChar = "infinity".data)
        = true) := by
      simp only [Bool.or_eq_true, decide_eq_true_eq]
      exact h1
    rw [if_neg h1b]
    by_cases h2 : u.map lowerChar = "nan".data
    · rw [if_pos h2]
      apply iff_of_true
      · rfl
      · exact Or.inr (Or.inr (Or.inl h2))
    · rw [if_neg h2, Option.isSome_map', mantissaExp_isSome_iff]
      constructor
      · intro h
        exact Or.inr (Or.inr (Or.inr h))
      · rintro (h | h | h | h)
        · exact absurd (Or.inl h) h1
        · exact absurd (Or.inr h) h1
        · exact absurd h h2
        · exact h

theorem pyFloat_isSome_iff (cs : List Char) :
    (pyFloatOfChars cs).isSome = true ↔
      ∃ sign body, trimWs cs = sign ++ body ∧ SignOpt sign ∧
        (body.map lowerChar = "inf".data ∨ body.map lowerChar = "infinity".data ∨
         body.map lowerChar = "nan".data ∨
         ∃ m x, body = m ++ x ∧ IsMantissa m ∧ IsExpPart x) := by
  cases ht : trimWs cs with
  | nil =>
    simp only [pyFloatOfChars, ht]
    apply iff_of_false
    · simp
    · rintro ⟨sign, body, heq, hs, hbody⟩
      have hbe : body = [] := (List.append_eq_nil.mp heq.symm).2
      rcases bodyOk_head hbody with ⟨c', t', heq', _⟩
      rw [hbe] at heq'
      exact absurd heq' (by simp)
  | cons c r =>
    simp only [pyFloatOfChars, ht]
    by_cases hp : c = '+'
    · subst hp
      rw [if_pos rfl, floatBody_isSome_iff]
      constructor
      · intro h
        exact ⟨['+'], r, rfl, Or.inr (Or.inl rfl), h⟩
      · rintro ⟨sign, body, heq, hs, hbody⟩
        rcases hs with hs | hs | hs <;> subst hs
        · rw [List.nil_append] at heq
          rcases bodyOk_head hbody with ⟨c', t', heq', hd⟩
          rw [heq'] at heq
          simp only [List.cons.injEq] at heq
          rcases hd with h' | h' | h' | h' <;> rw [← heq.1] at h' <;>
            exact absurd h' (by decide)
        · rw [List.cons_append, List.nil_append] at heq
          simp only [List.cons.injEq] at heq
          rw [heq.2]
          exact hbody
        · rw [List.cons_append, List.nil_append] at heq
          simp only [List.cons.injEq] at heq
          exact absurd heq.1 (by decide)
    · by_cases hm2 : c = '-'
      · subst hm2
        rw [if_neg (by decide), if_pos rfl, floatBody_isSome_iff]
        constructor
        · intro h
          exact ⟨['-'], r, rfl, Or.inr (Or.inr rfl), h⟩
        · rintro ⟨sign, body, heq, hs, hbody⟩
          rcases hs with hs | hs | hs <;> subst hs
          · rw [List.nil_append] at heq
            rcases bodyOk_head hbody with ⟨c', t', heq', hd⟩
            rw [heq'] at heq
            simp only [List.cons.injEq] at heq
            rcases hd with h' | h' | h' | h' <;> rw [← heq.1] at h' <;>
              exact absurd h' (by decide)
          · rw [List.cons_append, List.nil_append] at heq
            simp only [List.cons.injEq] at heq
            exact absurd heq.1 (by decide)
          · rw [List.cons_append, List.nil_append] at heq
            simp only [List.cons.injEq] at heq
            rw [heq.2]
            exact hbody
      · rw [if_neg hp, if_neg hm2, floatBody_isSome_iff]
        constructor
        · intro h
          exact ⟨[], c :: r, rfl, Or.inl rfl, h⟩
        · rintro ⟨sign, body, heq, hs, hbody⟩
          rcases hs with hs | hs | hs <;> subst hs
          · rw [List.nil_append] at heq
            rw [heq]
            exact hbody
          · rw [List.cons_append, List.nil_append] at heq
            simp only [List.cons.injEq] at heq
            exact absurd heq.1 hp
          · rw [List.cons_append, List.nil_append] at heq
            simp only [List.cons.injEq] at heq
            exact absurd heq.1 hm2

/-! ### Claim C1: attribute-style lookup of a missing key -/

/-- C1 counterexample: the claim quantifies over every attribute-style
lookup of an absent key, but the code special-cases the name
`Environment` (lines 126-127 return the class instead of applying the
blankify/noneify/raise policy), and the error raised for a missing key
carries the case-folded lookup name, not the requested spelling. -/
theorem C1_counterexample :
    dictGet (mkEnvironment [] true false false true false).envars "Environment" = none ∧
    Env.getattr (mkEnvironment [] true false false true false) "Environment"
      = (.classRes, mkEnvironment [] true false false true false) ∧
    AttrResult.classRes ≠ AttrResult.attrError "Environment" ∧
    Env.getattr (mkEnvironment [] false false false true false) "USERZ"
      = (.attrError "userz", mkEnvironment [] false false false true false) ∧
    "userz" ≠ "USERZ" := by
  refine ⟨rfl, rfl, by decide, ?_, by decide⟩
  decide

/-- C1 (amended): for every attribute-style lookup of a key absent from
the backing mapping, other than the special name `Environment`: blankify
set → an empty-string `Entry` is returned and stored under the folded
key, so a repeated lookup yields an equal (empty) value; else noneify
set → a no-value result; else the lookup fails with `KeyNotFoundError`
carrying the folded lookup name.  Blankify takes precedence over noneify
(the blankify branch applies whatever noneify is). -/
theorem C1_missing_key_policy (env : Env) (name : String)
    (hname : name ≠ "Environment")
    (hmiss : dictGet env.envars (env.foldName name) = none) :
    (env.blankify = true →
      Env.getattr env name
        = (.val (.entry ⟨"", ""⟩),
           { env with envars := dictInsert env.envars (env.foldName name) (.entry ⟨"", ""⟩) }) ∧
      (Env.getattr
          { env with envars := dictInsert env.envars (env.foldName name) (.entry ⟨"", ""⟩) }
          name).1
        = .val (.entry ⟨env.foldName name, ""⟩)) ∧
    (env.blankify = false → env.noneify = true →
      Env.getattr env name = (.noneRes, env)) ∧
    (env.blankify = false → env.noneify = false →
      Env.getattr env name = (.attrError (env.foldName name), env)) := by
  have hfold : Env.foldName { env with
      envars := dictInsert env.envars (env.foldName name) (.entry ⟨"", ""⟩) } name
      = env.foldName name := by
    simp [Env.foldName]
  refine ⟨fun hbl => ⟨?_, ?_⟩, fun hbl hnf => ?_, fun hbl hnf => ?_⟩
  · simp [Env.getattr, hname, hmiss, hbl, dictSetdefault]
  · simp [Env.getattr, hname, hfold, dictGet_dictInsert_self, strOf]
  · simp [Env.getattr, hname, hmiss, hbl, hnf]
  · simp [Env.getattr, hname, hmiss, hbl, hnf]

/-- C1 witness: a concrete missing-key lookup under noneify. -/
theorem C1_missing_key_policy_witness :
    Env.getattr (mkEnvironment [] true false true true false) "MISSING"
      = (.noneRes, mkEnvironment [] true false true true false) := by
  have h := C1_missing_key_policy (mkEnvironment [] true false true true false) "MISSING"
    (by decide) (by decide)
  exact h.2.1 rfl rfl

/-! ### Claim C2: mapping-style get-item on a missing key -/

/-- C2: for every key absent from the backing mapping and every
Environment configuration, mapping-style get-item fails with
`KeyNotFoundError`; the blankify/noneify fallback never applies to
mapping-style access. -/
theorem C2_getitem_missing (env : Env) (key : String)
    (h : Env.containsKey env key = false) : Env.getitem env key = none := by
  rw [Env.getitem]
  cases hv : dictGet env.envars key with
  | none => rfl
  | some v =>
    rw [Env.containsKey, hv] at h
    simp at h

/-- C2 witness: an insensitive blankify+noneify Environment still fails
mapping-style get-item on a key absent as spelled (the fallback policy
never applies to `get-item`). -/
theorem C2_getitem_missing_witness :
    Env.getitem (mkEnvironment [("user", .plain "fred")] false true true true false) "USER"
      = none :=
  C2_getitem_missing _ _ (by decide)

/-! ### Claim C3: lookups of a present key -/

/-- C3 counterexample, two parts.  First: mapping-style get-item returns
the bare raw stored string, not an `Entry` wrapping it (line 157
returns `self._envars[key]` directly; the module's own doctest shows
`env['PI']` printing as `'3.14'`, a plain `str` repr).  Second: even
attribute-style lookup does not wrap every present key — with the key
`Environment` present in the backing mapping, lines 126-127 return the
class object instead of an `Entry` wrapping the stored value. -/
theorem C3_counterexample :
    Env.getitem (mkEnvironment [("PI", .plain "3.14")] true false true true false) "PI"
      = some (.plain "3.14") ∧
    (Env.getitem (mkEnvironment [("PI", .plain "3.14")] true false true true false) "PI").map
        StrVal.isEntryB
      = some false ∧
    dictGet (mkEnvironment [("Environment", .plain "v")] true false true true false).envars
        "Environment" = some (.plain "v") ∧
    Env.getattr (mkEnvironment [("Environment", .plain "v")] true false true true false)
        "Environment"
      = (.classRes, mkEnvironment [("Environment", .plain "v")] true false true true false) ∧
    (Env.getattr (mkEnvironment [("Environment", .plain "v")] true false true true false)
        "Environment").1.isValB = false := by
  exact ⟨rfl, rfl, rfl, rfl, rfl⟩

/-- C3 (amended): for every key present in the backing mapping other
than the special name `Environment` (whose attribute-style lookup
returns the `Environment` class object even when the key is present),
attribute-style lookup returns the raw stored value wrapped in a fresh
`Entry` whose string content equals the stored value; mapping-style
get-item returns the raw stored value itself, unwrapped, for every
present key. -/
theorem C3_present_key (env : Env) (name : String) (v : StrVal)
    (hname : name ≠ "Environment")
    (hv : dictGet env.envars (env.foldName name) = some v) :
    Env.getattr env name = (.val (.entry ⟨env.foldName name, strOf v⟩), env) ∧
    Env.getitem env (env.foldName name) = some v ∧
    (∀ key w, dictGet env.envars key = some w → Env.getitem env key = some w) := by
  refine ⟨?_, ?_, fun key w hw => ?_⟩
  · simp [Env.getattr, hname, hv]
  · rw [Env.getitem, hv]
  · rw [Env.getitem, hw]

/-- C3 witness: a present key, looked up both ways. -/
theorem C3_present_key_witness :
    Env.getattr (mkEnvironment [("PI", .plain "3.14")] true false true true false) "PI"
      = (.val (.entry ⟨"PI", "3.14"⟩), mkEnvironment [("PI", .plain "3.14")] true false true true false) ∧
    Env.getitem (mkEnvironment [("PI", .plain "3.14")] true false true true false) "PI"
      = some (.plain "3.14") := by
  have h := C3_present_key (mkEnvironment [("PI", .plain "3.14")] true false true true false)
    "PI" (.plain "3.14") (by decide) (by decide)
  exact ⟨h.1, h.2.1⟩

/-! ### Claim C4: case-insensitive folding -/

theorem keys_lower_foldl (l : Dict) (acc : Dict)
    (hacc : ∀ p ∈ acc, pyLower p.1 = p.1) :
    ∀ p ∈ l.foldl (fun d q => dictInsert d (pyLower q.1) q.2) acc, pyLower p.1 = p.1 := by
  induction l generalizing acc with
  | nil => exact hacc
  | cons q t ih =>
    intro p hp
    rw [List.foldl_cons] at hp
    refine ih (dictInsert acc (pyLower q.1) q.2) (fun r hr => ?_) p hp
    rcases mem_dictInsert hr with h1 | h1
    · rw [h1]
      exact pyLower_idem q.1
    · exact hacc r h1

/-- C4: for an Environment constructed with sensitive=false, every key
is folded to lowercase at construction (every stored key is a
lowercase-fixed string) and at each attribute-style lookup, so looking
up the uppercase spelling and the lowercase spelling of any name return
equal results (value and resulting state alike). -/
theorem C4_insensitive_fold (environ : Dict) (bl nf ro os : Bool) (name : String) :
    (∀ p ∈ (mkEnvironment environ false bl nf ro os).envars, pyLower p.1 = p.1) ∧
    Env.getattr (mkEnvironment environ false bl nf ro os) (pyUpper name)
      = Env.getattr (mkEnvironment environ false bl nf ro os) (pyLower name) := by
  constructor
  · intro p hp
    refine keys_lower_foldl environ [] (by simp) p ?_
    simpa [mkEnvironment] using hp
  · have h1 : pyUpper name ≠ "Environment" := pyUpper_ne_Environment name
    have h2 : pyLower name ≠ "Environment" := pyLower_ne_Environment name
    have h3 : Env.foldName (mkEnvironment environ false bl nf ro os) (pyUpper name)
        = Env.foldName (mkEnvironment environ false bl nf ro os) (pyLower name) := by
      simp [Env.foldName, mkEnvironment, pyLower_pyUpper, pyLower_idem]
    simp only [Env.getattr, if_neg h1, if_neg h2, h3]

/-- C4 witness: `USER` and `user` resolve identically on a concrete
insensitive Environment. -/
theorem C4_insensitive_fold_witness :
    Env.getattr (mkEnvironment [("user", .plain "fred")] false false true true false)
        (pyUpper "user")
      = Env.getattr (mkEnvironment [("user", .plain "fred")] false false true true false)
        (pyLower "user") :=
  (C4_insensitive_fold [("user", .plain "fred")] false true true false "user").2

/-! ### Claim C5: mutation of a read-only Environment -/

/-- C5 counterexample: deleting from a read-only Environment does not
raise `ImmutableError` — `__delattr__` (lines 151-152) has no read-only
check, so the key is removed and the backing mapping changes. -/
theorem C5_counterexample :
    (mkEnvironment [("USER", .plain "fred")] true false true true false).readonly = true ∧
    Env.delattr (mkEnvironment [("USER", .plain "fred")] true false true true false) "USER"
      = .ok (mkEnvironment [] true false true true false) ∧
    (mkEnvironment [] true false true true false).envars
      ≠ (mkEnvironment [("USER", .plain "fred")] true false true true false).envars := by
  refine ⟨rfl, rfl, by decide⟩

/-- C5 (amended): on a read-only Environment, attribute-style set fails
with `ImmutableError` and leaves the backing mapping and the live
environment unchanged; but attribute-style and mapping-style delete
ignore the readonly flag: they remove a present key, and fail with
`KeyNotFoundError` only when the key is absent. -/
theorem C5_readonly_mutation (env : Env) (osEnv : Dict) (name : String) (v : StrVal)
    (hro : env.readonly = true) :
    Env.setattr env osEnv name v = .immutableError env osEnv ∧
    (∀ w, dictGet env.envars name = some w →
      Env.delattr env name = .ok { env with envars := dictErase env.envars name } ∧
      Env.delitem env name = .ok { env with envars := dictErase env.envars name }) ∧
    (dictGet env.envars name = none →
      Env.delattr env name = .keyError name env ∧
      Env.delitem env name = .keyError name env) := by
  refine ⟨by simp [Env.setattr, hro], fun w hw => ?_, fun hw => ?_⟩
  · constructor
    · rw [Env.delattr, hw]
    · rw [Env.delitem, hw]
  · constructor
    · rw [Env.delattr, hw]
    · rw [Env.delitem, hw]

/-- C5 witness: a concrete read-only set attempt and delete. -/
theorem C5_readonly_mutation_witness :
    Env.setattr (mkEnvironment [("USER", .plain "fred")] true false true true false) []
        "X" (.plain "y")
      = .immutableError (mkEnvironment [("USER", .plain "fred")] true false true true false) [] ∧
    Env.delattr (mkEnvironment [("USER", .plain "fred")] true false true true false) "USER"
      = .ok { mkEnvironment [("USER", .plain "fred")] true false true true false with
              envars := [] } := by
  have h := C5_readonly_mutation
    (mkEnvironment [("USER", .plain "fred")] true false true true false) [] "USER"
    (.plain "y") (by decide)
  exact ⟨h.1, ((h.2.1 (.plain "fred") (by decide)).1.trans (by decide))⟩

/-! ### Claim C6: attribute-style set on a mutable Environment -/

/-- C6 counterexample, two parts.  First: `__setattr__` (line 146)
stores under the name exactly as given, with no case folding: on a
case-insensitive Environment, setting `USER` stores key `USER`, the
folded key `user` is still absent, and a subsequent attribute-style
lookup of `USER` (which folds) misses.  Second: even on a
case-sensitive Environment the stored key is not always found again —
setting the name `Environment` stores the key, but the follow-up
attribute lookup returns the class object (lines 126-127). -/
theorem C6_counterexample :
    Env.setattr (mkEnvironment [] false false true false false) [] "USER" (.plain "fred")
      = .ok { mkEnvironment [] false false true false false with
              envars := [("USER", .plain "fred")] } [] ∧
    dictGet [("USER", StrVal.plain "fred")] "user" = none ∧
    (Env.getattr { mkEnvironment [] false false true false false with
        envars := [("USER", .plain "fred")] } "USER").1 = .noneRes ∧
    Env.setattr (mkEnvironment [] true false true false false) [] "Environment" (.plain "x")
      = .ok { mkEnvironment [] true false true false false with
              envars := [("Environment", .plain "x")] } [] ∧
    (Env.getattr { mkEnvironment [] true false true false false with
        envars := [("Environment", .plain "x")] } "Environment").1 = .classRes := by
  refine ⟨rfl, rfl, ?_, rfl, rfl⟩
  decide

/-- C6 (amended): for every Environment with readonly=false,
attribute-style set stores the value under the name exactly as given —
with no case folding — and additionally writes the pair into the live
process environment if and only if the Environment's source mapping is
the live process environment by identity (not by equality).  For every
name other than the special name `Environment` (whose attribute lookup
returns the class object): a subsequent attribute-style lookup of the
name finds the stored value whenever the folded lookup key equals the
name — in particular always when the Environment is case-sensitive —
and when the folded key differs from the name (a case-insensitive
Environment and a not-all-lowercase name) the write is invisible to
that lookup: the folded key's binding is unchanged by the set. -/
theorem C6_setattr_stores (env : Env) (osEnv : Dict) (name : String) (v : StrVal)
    (hro : env.readonly = false) :
    Env.setattr env osEnv name v
      = .ok { env with envars := dictInsert env.envars name v }
          (if env.fromOsEnviron then dictInsert osEnv name v else osEnv) ∧
    dictGet (dictInsert env.envars name v) name = some v ∧
    (name ≠ "Environment" →
      (Env.foldName env name = name →
        (Env.getattr { env with envars := dictInsert env.envars name v } name).1
          = .val (.entry ⟨name, strOf v⟩)) ∧
      (Env.foldName env name ≠ name →
        dictGet (dictInsert env.envars name v) (Env.foldName env name)
          = dictGet env.envars (Env.foldName env name))) ∧
    (env.sensitive = true → Env.foldName env name = name) := by
  refine ⟨by simp [Env.setattr, hro], dictGet_dictInsert_self env.envars name v,
    fun hname => ⟨?_, ?_⟩, fun hs => by simp [Env.foldName, hs]⟩
  · intro hfold
    have hfold' : Env.foldName { env with envars := dictInsert env.envars name v } name
        = name := by
      simpa [Env.foldName] using hfold
    simp [Env.getattr, hname, hfold', dictGet_dictInsert_self]
  · intro hfold
    exact dictGet_dictInsert_ne env.envars name v _ hfold

/-- C6 witness: a concrete write to a case-sensitive Environment
aliasing the live process environment, found by the follow-up lookup. -/
theorem C6_setattr_stores_witness :
    Env.setattr (mkEnvironment [] true false true false true) [] "READY" (.plain "yes")
      = .ok { mkEnvironment [] true false true false true with
              envars := [("READY", .plain "yes")] } [("READY", .plain "yes")] ∧
    (Env.getattr { mkEnvironment [] true false true false true with
        envars := [("READY", .plain "yes")] } "READY").1
      = .val (.entry ⟨"READY", "yes"⟩) := by
  have h := C6_setattr_stores (mkEnvironment [] true false true false true) [] "READY"
    (.plain "yes") (by decide)
  exact ⟨h.1.trans (by decide), ((h.2.2.1 (by decide)).1 (by decide)).trans (by decide)⟩

/-! ### Claim C7: mapping-style set-item -/

/-- C7: `__setitem__` (line 158) assigns to `self.data`, an attribute
that does not exist; the access goes through `__getattr__('data')` and
the assignment always fails (`TypeError` on the `Entry`/`None` results,
`AttributeError` when neither blankify nor noneify is set), so set-item
never stores anything: a subsequent get-item of the key still fails. -/
theorem C7_setitem_never_stores :
    Env.setitem (mkEnvironment [] true false true false false) "X" (.plain "y")
      = (.typeError, mkEnvironment [] true false true false false) ∧
    Env.getitem (mkEnvironment [] true false true false false) "X" = none ∧
    Env.setitem (mkEnvironment [] true false false false false) "X" (.plain "y")
      = (.attrErrorRes "data", mkEnvironment [] true false false false false) := by
  refine ⟨?_, rfl, ?_⟩ <;> decide

/-! ### Claim C10: blankify inserts on read -/

/-- C10 counterexample: the claim quantifies over every missing key, but
an attribute-style lookup of the missing key `Environment` on a
blankify Environment returns the class (lines 126-127) and inserts
nothing: contains stays false and the length is unchanged. -/
theorem C10_counterexample :
    (mkEnvironment [] true true false true false).blankify = true ∧
    dictGet (mkEnvironment [] true true false true false).envars "Environment" = none ∧
    Env.getattr (mkEnvironment [] true true false true false) "Environment"
      = (.classRes, mkEnvironment [] true true false true false) ∧
    Env.lenE (Env.getattr (mkEnvironment [] true true false true false) "Environment").2
      = Env.lenE (mkEnvironment [] true true false true false) ∧
    Env.containsKey (Env.getattr (mkEnvironment [] true true false true false) "Environment").2
        "Environment" = false := by
  refine ⟨rfl, rfl, rfl, rfl, rfl⟩

/-- C10 (amended): for every Environment with blankify=true — including
a read-only one — an attribute-style lookup of a missing key other than
the special name `Environment` inserts the folded key with an
empty-string value into the backing mapping as a side effect of the
read: afterwards contains on that key is true, the length has grown by
one, and get-item returns the stored blank `Entry`. -/
theorem C10_blankify_inserts (env : Env) (name : String)
    (hbl : env.blankify = true) (hname : name ≠ "Environment")
    (hmiss : dictGet env.envars (env.foldName name) = none) :
    Env.getattr env name
      = (.val (.entry ⟨"", ""⟩),
         { env with envars := dictInsert env.envars (env.foldName name) (.entry ⟨"", ""⟩) }) ∧
    Env.containsKey (Env.getattr env name).2 (env.foldName name) = true ∧
    Env.lenE (Env.getattr env name).2 = Env.lenE env + 1 ∧
    Env.getitem (Env.getattr env name).2 (env.foldName name) = some (.entry ⟨"", ""⟩) := by
  have hg : Env.getattr env name
      = (.val (.entry ⟨"", ""⟩),
         { env with envars := dictInsert env.envars (env.foldName name) (.entry ⟨"", ""⟩) }) := by
    simp [Env.getattr, hname, hmiss, hbl, dictSetdefault]
  refine ⟨hg, ?_, ?_, ?_⟩
  · rw [hg]
    simp [Env.containsKey, dictGet_dictInsert_self]
  · rw [hg]
    simp [Env.lenE, length_dictInsert _ hmiss]
  · rw [hg]
    simp [Env.getitem, dictGet_dictInsert_self]

/-! ### Claim C8: boolean conversion -/

/-- C8 counterexample: the claim fixes the true tokens to `1`/`yes`/`true`
and calls every other non-empty unrecognized content indeterminate, but
`as_bool` (lines 37-39) routes every digit string through
`bool(int(...))`: `"2"` and `"007"` convert to true and `"00"` to false
instead of an indeterminate result. -/
theorem C8_counterexample :
    as_bool ⟨"X", "2"⟩ = some true ∧
    some true ≠ (none : Option Bool) ∧
    as_bool ⟨"X", "007"⟩ = some true ∧
    as_bool ⟨"X", "00"⟩ = some false := by
  refine ⟨rfl, by decide, rfl, rfl⟩

/-- C8 (amended): as-boolean never raises: digit-string content converts
through its integer value (nonzero → true, zero → false; this covers
`"1"` → true and `"0"` → false), `yes`/`true` case-insensitively →
true, `no`/`false` case-insensitively → false, the empty string →
false, and every other content → an indeterminate no-value result. -/
theorem C8_as_bool_policy :
    (∀ nm s, pyIsDigitStr (pyLower s) = true →
      as_bool ⟨nm, s⟩ = some (natOfDigits (pyLower s).data != 0)) ∧
    (∀ nm s, pyLower s = "yes" ∨ pyLower s = "true" → as_bool ⟨nm, s⟩ = some true) ∧
    (∀ nm s, pyLower s = "no" ∨ pyLower s = "false" → as_bool ⟨nm, s⟩ = some false) ∧
    (∀ nm, as_bool ⟨nm, ""⟩ = some false) ∧
    (∀ nm s, pyIsDigitStr (pyLower s) = false →
      pyLower s ≠ "yes" → pyLower s ≠ "true" → pyLower s ≠ "no" → pyLower s ≠ "false" →
      s ≠ "" → as_bool ⟨nm, s⟩ = none) ∧
    as_bool ⟨"X", "1"⟩ = some true ∧
    as_bool ⟨"X", "yes"⟩ = some true ∧
    as_bool ⟨"X", "YES"⟩ = some true ∧
    as_bool ⟨"X", "0"⟩ = some false ∧
    as_bool ⟨"X", "no"⟩ = some false ∧
    as_bool ⟨"X", "FALSE"⟩ = some false ∧
    as_bool ⟨"X", "maybe"⟩ = none := by
  refine ⟨?_, ?_, ?_, ?_, ?_, rfl, rfl, by decide, rfl, rfl, by decide, rfl⟩
  · intro nm s h
    simp [as_bool, h]
  · intro nm s h
    rcases h with h | h <;> simp [as_bool, h] <;> decide
  · intro nm s h
    rcases h with h | h <;> simp [as_bool, h] <;> decide
  · intro nm
    rfl
  · intro nm s h1 h2 h3 h4 h5 h6
    simp [as_bool, h1, h2, h3, h4, h5, h6]

/-- C8 witness: an unrecognized non-empty content is indeterminate. -/
theorem C8_as_bool_policy_witness : as_bool ⟨"X", "perhaps"⟩ = none :=
  C8_as_bool_policy.2.2.2.2.1 "X" "perhaps" (by decide) (by decide) (by decide)
    (by decide) (by decide) (by decide)

/-! ### Claim C9: numeric conversions -/

/-- C9: as-integer returns the integer value when the content is a valid
integer literal (e.g. `Entry("X","5150").as_int == 5150`) and fails with
`ParseError` when it is not; likewise as-float returns the float value
of a valid float literal (`"3.14"` → 3.14, exactly 157/50 as a
rational) and fails with `ParseError` otherwise: conversion succeeds
exactly on the respective CPython literal grammar (optional whitespace
and sign; digit parts with PEP 515 underscores; for floats also
`inf`/`infinity`/`nan` case-insensitively and an optional fraction and
exponent). -/
theorem C9_numeric_conversions :
    as_int ⟨"X", "5150"⟩ = some 5150 ∧
    as_float ⟨"X", "3.14"⟩ = some (.finite (157 / 50 : ℚ)) ∧
    (∀ e : EntryV, (as_int e).isSome = true ↔ IsIntLiteral e.content) ∧
    (∀ e : EntryV, (as_float e).isSome = true ↔ IsFloatLiteral e.content) := by
  refine ⟨by decide, ?_, fun e => ?_, fun e => ?_⟩
  · have h : as_float ⟨"X", "3.14"⟩
        = some (.finite (((digitPartVal ['3'] : ℚ)
            + (digitPartVal ['1', '4'] : ℚ) / 10 ^ (2 : ℕ)) * 10 ^ (0 : ℤ))) := rfl
    have h3 : digitPartVal ['3'] = 3 := by decide
    have h14 : digitPartVal ['1', '4'] = 14 := by decide
    rw [h, h3, h14]
    refine congrArg some (congrArg PyFloat.finite ?_)
    norm_num
  · rw [as_int, pyIntOfChars, IsIntLiteral]
    exact signedDigits_isSome_iff _
  · rw [as_float, IsFloatLiteral]
    exact pyFloat_isSome_iff _

/-- C9 witness: an integer literal with an underscore separator, a
signed infinity, and a float literal with fraction and exponent all
convert. -/
theorem C9_numeric_conversions_witness :
    (as_int ⟨"X", "1_0"⟩).isSome = true ∧ (as_float ⟨"X", "-inf"⟩).isSome = true ∧
    (as_float ⟨"X", "2.5e1"⟩).isSome = true := by
  refine ⟨?_, ?_, ?_⟩
  · exact (C9_numeric_conversions.2.2.1 ⟨"X", "1_0"⟩).mpr
      ⟨[], ['1', '_', '0'], by decide, Or.inl rfl, by decide⟩
  · exact (C9_numeric_conversions.2.2.2 ⟨"X", "-inf"⟩).mpr
      ⟨['-'], ['i', 'n', 'f'], by decide, Or.inr (Or.inr rfl), Or.inl (by decide)⟩
  · exact (C9_numeric_conversions.2.2.2 ⟨"X", "2.5e1"⟩).mpr
      ⟨[], ['2', '.', '5', 'e', '1'], by decide, Or.inl rfl,
        Or.inr (Or.inr (Or.inr ⟨['2', '.', '5'], ['e', '1'], rfl,
          Or.inr ⟨['2'], ['5'], rfl, Or.inr (by decide), Or.inr (by decide),
            Or.inl (by decide)⟩,
          Or.inr ⟨'e', ['1'], rfl, Or.inl rfl, ⟨[], ['1'], rfl, Or.inl rfl, by decide⟩⟩⟩))⟩

/-- C10 witness: a read-only blankify Environment grows on a missing
attribute read. -/
theorem C10_blankify_inserts_witness :
    Env.getattr (mkEnvironment [] true true false true false) "FOO"
      = (.val (.entry ⟨"", ""⟩),
         { mkEnvironment [] true true false true false with
           envars := [("FOO", .entry ⟨"", ""⟩)] }) := by
  have h := C10_blankify_inserts (mkEnvironment [] true true false true false) "FOO"
    (by decide) (by decide) (by decide)
  exact h.1.trans (by decide)

end E2
